import Mathlib

/-!
Verification of the SDGA simulation engine of quinarymcgraphics
(src/sdga.go and src/main.go).

Modelling conventions:

* Go `image.Alpha` and `image.Gray` are both modelled as a rectangle plus a
  pixel function (`Image` below).  As in Go's `image` package, `AlphaAt` /
  `GrayAt` outside the bounds return the zero color and `SetAlpha` /
  `SetGray` outside the bounds are dropped.  Pixel values are `Fin 256`
  (Go `uint8`).

* Go `float64` arithmetic is modelled as exact rational arithmetic with an
  explicit NaN (`Option ℚ`, `none` = NaN).  The only division by zero
  reachable from the operators is `0/0` (when `durationSteps = 0`), which is
  NaN in IEEE-754 just as it is here.  Every concrete input evaluated below
  makes the corresponding float computation exact, so the idealisation does
  not change any of the concrete values involved.

* Go's `uint8(f)` conversion truncates toward zero and keeps the low byte;
  converting NaN yields 0 on Go's supported targets (amd64, arm64, ...).

* `sdga.go` as committed spells `unint8` and `Sprintf` in QuenchingOperator;
  the evident intent (`uint8`, `fmt.Sprintf`) is modelled.
-/

namespace SDGA

/-- `image.Rectangle` with `Min = (minX, minY)`, `Max = (maxX, maxY)`. -/
structure Rect where
  minX : ℤ
  minY : ℤ
  maxX : ℤ
  maxY : ℤ
deriving DecidableEq

/-- The point `(x, y)` lies inside the rectangle (Go: `Point.In`). -/
def Rect.contains (r : Rect) (x y : ℤ) : Prop :=
  r.minX ≤ x ∧ x < r.maxX ∧ r.minY ≤ y ∧ y < r.maxY

instance (r : Rect) (x y : ℤ) : Decidable (r.contains x y) := by
  unfold Rect.contains; infer_instance

/-- `Rectangle.Dx`. -/
def Rect.Dx (r : Rect) : ℤ := r.maxX - r.minX

/-- `Rectangle.Dy`. -/
def Rect.Dy (r : Rect) : ℤ := r.maxY - r.minY

/-- A Go `image.Alpha` or `image.Gray`: bounds plus per-pixel channel value.
The flat `Pix` byte slice is represented by the function `pix`; only the
cells inside `rect` correspond to actual bytes of the Go buffer. -/
structure Image where
  rect : Rect
  pix : ℤ → ℤ → Fin 256

/-- `AlphaAt` / `GrayAt`: the zero color outside the bounds. -/
def Image.At (img : Image) (x y : ℤ) : Fin 256 :=
  if img.rect.contains x y then img.pix x y else 0

/-- `SetAlpha` / `SetGray`: writes outside the bounds are dropped. -/
def Image.Set (img : Image) (x y : ℤ) (v : Fin 256) : Image :=
  if img.rect.contains x y then
    { img with pix := fun a b => if a = x ∧ b = y then v else img.pix a b }
  else img

/-- `Multivector` (sdga.go): a named state with a Geometry mask and an
Energy map. -/
structure Multivector where
  Name : String
  Geometry : Image
  Energy : Image

/-- `newMultivector`: zeroed (blank) images over `bounds`. -/
def newMultivector (name : String) (bounds : Rect) : Multivector :=
  { Name := name
    Geometry := ⟨bounds, fun _ _ => 0⟩
    Energy := ⟨bounds, fun _ _ => 0⟩ }

/-- The list `[lo, lo+1, ..., hi-1]` (empty when `hi ≤ lo`). -/
def intRange (lo hi : ℤ) : List ℤ :=
  (List.range (hi - lo).toNat).map (fun (k : ℕ) => lo + (k : ℤ))

/-- The cells visited by the nested `for y ... for x ...` loops of
`TotalEnergy`, in visiting order. -/
def Rect.cells (r : Rect) : List (ℤ × ℤ) :=
  (intRange r.minY r.maxY).flatMap (fun y => (intRange r.minX r.maxX).map (fun x => (x, y)))

/-- `Multivector.TotalEnergy`: iterate over the Energy image's bounds and
accumulate the energy of every cell whose geometry alpha is positive.
The Go accumulator is a `uint64`; since each cell contributes at most 255,
the accumulator cannot wrap for any image that fits in memory, so the sum is
modelled on ℕ. -/
def Multivector.TotalEnergy (mv : Multivector) : ℕ :=
  (mv.Energy.rect.cells).foldl
    (fun total c =>
      if 0 < (mv.Geometry.At c.1 c.2 : ℕ) then total + (mv.Energy.At c.1 c.2 : ℕ) else total)
    0

/-! ### The float64 model -/

/-- A Go `float64` value as used by the operators: either a finite value
(exact rational) or NaN. -/
abbrev FVal := Option ℚ

/-- float64 addition; NaN propagates. -/
def FVal.add : FVal → FVal → FVal
  | some a, some b => some (a + b)
  | _, _ => none

/-- float64 subtraction; NaN propagates. -/
def FVal.sub : FVal → FVal → FVal
  | some a, some b => some (a - b)
  | _, _ => none

/-- float64 multiplication; NaN propagates (also `0 * NaN = NaN`, as in
IEEE-754). -/
def FVal.mul : FVal → FVal → FVal
  | some a, some b => some (a * b)
  | _, _ => none

/-- float64 division as the operators use it (`i / durationSteps`).  The only
reachable division by zero is `0/0`, which is NaN; a nonzero numerator over
zero would be ±Inf in IEEE-754 but never occurs in this code. -/
def FVal.div : FVal → FVal → FVal
  | some a, some b => if b = 0 then none else some (a / b)
  | _, _ => none

/-- `math.Pow` with the literal exponent `3.0`; NaN propagates and the result
is exact for the exact inputs reached below. -/
def FVal.pow3 : FVal → FVal
  | some a => some (a ^ 3)
  | none => none

/-- Truncation toward zero: Go's float-to-integer conversion discards the
fractional part. -/
def qtrunc (q : ℚ) : ℤ := if 0 ≤ q then ⌊q⌋ else -⌊-q⌋

/-- Go's `uint8(f)` conversion: truncate toward zero, keep the low byte
(`% 256` never actually engages in the operators, whose values stay inside
[0,255] — see the range-safety theorem); `uint8(NaN)` is 0 on Go's supported
targets. -/
def f2u8 : FVal → Fin 256
  | none => 0
  | some q => ⟨((qtrunc q) % 256).toNat, by omega⟩

/-- The indices produced by `for i := 0; i <= durationSteps; i++`:
`0, 1, ..., durationSteps`, and no iteration at all when
`durationSteps < 0`. -/
def stepIdxs (durationSteps : ℤ) : List ℤ :=
  if 0 ≤ durationSteps then (List.range (durationSteps.toNat + 1)).map (fun (k : ℕ) => (k : ℤ))
  else []

/-- The diagnostic name `fmt.Sprintf("Genesis-%.0f%%", t*100)` (resp.
`"Quench-..."`).  Its numeric rendering is not modelled: the spec states that
names are "for diagnostics only; not semantically load-bearing" and no claim
depends on them. -/
def stepLabel (opName : String) (t : FVal) : String := opName

/-- `t := float64(i) / float64(durationSteps)` as both operators compute
it. -/
def tFactor (durationSteps i : ℤ) : FVal :=
  FVal.div (some ((i : ℚ))) (some ((durationSteps : ℚ)))

/-- `decayFactor := math.Pow(1.0-t, 3.0)` (QuenchingOperator). -/
def decayFactor (t : FVal) : FVal := FVal.pow3 (FVal.sub (some 1) t)

/-! ### GenesisOperator -/

/-- The per-cell computation of `GenesisOperator.Apply`:
`valA*(1-t) + valB*t` with `valA` from `initial` and `valB` from `target`. -/
def lerpVal (valA valB : Fin 256) (t : FVal) : FVal :=
  FVal.add (FVal.mul (some ((valA : ℕ) : ℚ)) (FVal.sub (some 1) t))
           (FVal.mul (some ((valB : ℕ) : ℚ)) t)

/-- One loop iteration of `GenesisOperator.Apply`: the state emitted at index
`i`.  The Go code allocates zeroed images over `bounds` (the bounds of
`initial.Geometry`) and then sets every in-bounds cell, so the resulting
pixel function is the interpolated value inside `bounds` and 0 outside. -/
def GenesisOperator.step (initial target : Multivector) (durationSteps i : ℤ) : Multivector :=
  let bounds := initial.Geometry.rect
  let t : FVal := tFactor durationSteps i
  { Name := stepLabel "Genesis" t
    Geometry := ⟨bounds, fun x y =>
      if bounds.contains x y then
        f2u8 (lerpVal (initial.Geometry.At x y) (target.Geometry.At x y) t)
      else 0⟩
    Energy := ⟨bounds, fun x y =>
      if bounds.contains x y then
        f2u8 (lerpVal (initial.Energy.At x y) (target.Energy.At x y) t)
      else 0⟩ }

/-- `GenesisOperator.Apply`: one emitted state per loop index.  The channel
plumbing delivers exactly these states in this order, so the stream is
modelled as the list of emissions. -/
def GenesisOperator.Apply (initial target : Multivector) (durationSteps : ℤ) : List Multivector :=
  (stepIdxs durationSteps).map (GenesisOperator.step initial target durationSteps)

/-! ### QuenchingOperator -/

/-- The per-cell computation of `QuenchingOperator.Apply`:
`valA + (valB - valA)*decayFactor` with `valA` from `target` and `valB` from
`initial`. -/
def decayVal (valA valB : Fin 256) (decayFactor : FVal) : FVal :=
  FVal.add (some ((valA : ℕ) : ℚ))
           (FVal.mul (FVal.sub (some ((valB : ℕ) : ℚ)) (some ((valA : ℕ) : ℚ))) decayFactor)

/-- One loop iteration of `QuenchingOperator.Apply`: the state emitted at
index `i`, with `decayFactor = (1-t)³` (`math.Pow(1.0-t, 3.0)`). -/
def QuenchingOperator.step (initial target : Multivector) (durationSteps i : ℤ) : Multivector :=
  let bounds := initial.Geometry.rect
  let t : FVal := tFactor durationSteps i
  let decay : FVal := decayFactor t
  { Name := stepLabel "Quench" t
    Geometry := ⟨bounds, fun x y =>
      if bounds.contains x y then
        f2u8 (decayVal (target.Geometry.At x y) (initial.Geometry.At x y) decay)
      else 0⟩
    Energy := ⟨bounds, fun x y =>
      if bounds.contains x y then
        f2u8 (decayVal (target.Energy.At x y) (initial.Energy.At x y) decay)
      else 0⟩ }

/-- `QuenchingOperator.Apply`: one emitted state per loop index. -/
def QuenchingOperator.Apply (initial target : Multivector) (durationSteps : ℤ) : List Multivector :=
  (stepIdxs durationSteps).map (QuenchingOperator.step initial target durationSteps)

/-! ### PotentialityOperator -/

/-- `PotentialityOperator.Apply`: emits exactly one state — a fresh
Multivector named `target.Name` over `target.Geometry.Bounds()` whose two Pix
buffers are byte-copied from `target`'s (`copy(dst.Pix, src.Pix)`).  The byte
copy is modelled pointwise; for the Energy grid this is faithful whenever
`target`'s two grids share bounds (the spec's domain invariant) — Go's flat
byte copy would positionally reindex a mismatched Energy buffer, which is a
memory-layout detail outside this model. -/
def PotentialityOperator.Apply (initial target : Multivector) (durationSteps : ℤ) :
    List Multivector :=
  [{ Name := target.Name
     Geometry := ⟨target.Geometry.rect, fun x y =>
       if target.Geometry.rect.contains x y then target.Geometry.pix x y else 0⟩
     Energy := ⟨target.Geometry.rect, fun x y =>
       if target.Geometry.rect.contains x y then target.Energy.pix x y else 0⟩ }]

/-! ### The driver (main.go) -/

/-- `simShape := image.Rect(0, 0, 100, 10)`. -/
def simShape : Rect := ⟨0, 0, 100, 10⟩

/-- `PSI_NULL`: the Inactive state, zero energy and zero geometry. -/
def PSI_NULL : Multivector := newMultivector "Null (PSI0)" simShape

/-- `activeGeomY := simShape.Dy() / 2`. -/
def activeGeomY : ℤ := simShape.Dy / 2

/-- The body of the `for x := 0; x < simShape.Dx(); x++` loop building
`PSI_ACTIVE`: set the two geometry alphas to 255 and the two energies
to 250 at column `x`. -/
def activeLoopBody (mv : Multivector) (x : ℤ) : Multivector :=
  { mv with
    Geometry := (mv.Geometry.Set x (activeGeomY - 1) 255).Set x activeGeomY 255
    Energy := (mv.Energy.Set x (activeGeomY - 1) 250).Set x activeGeomY 250 }

/-- `PSI_ACTIVE`: full geometry and high energy on the centered 2-row band. -/
def PSI_ACTIVE : Multivector :=
  (List.range simShape.Dx.toNat).foldl (fun mv (k : ℕ) => activeLoopBody mv (k : ℤ))
    (newMultivector "Active (PSI1)" simShape)

/-- The state of the `PSI_ACTIVE` construction loop after its first `m`
iterations (so `PSI_ACTIVE = activeCols 100`); used to reason about the
loop by induction. -/
def activeCols (m : ℕ) : Multivector :=
  (List.range m).foldl (fun mv (k : ℕ) => activeLoopBody mv (k : ℤ))
    (newMultivector "Active (PSI1)" simShape)

/-- `PSI_POTENTIAL`: zero energy, and the Geometry of `PSI_ACTIVE`
(the Go code assigns the very pointer). -/
def PSI_POTENTIAL : Multivector :=
  { newMultivector "Potential (PSIp)" simShape with Geometry := PSI_ACTIVE.Geometry }

/-- The driver's consumption loop `for state := range opChan { currentState =
state }`: after draining, `currentState` is the last emitted state (unchanged
if nothing was emitted). -/
def drain (cur : Multivector) (emitted : List Multivector) : Multivector :=
  emitted.foldl (fun _ s => s) cur

/-- First scripted step: Potentiality toward `PSI_POTENTIAL`, 0 steps. -/
def opChan1 : List Multivector := PotentialityOperator.Apply PSI_NULL PSI_POTENTIAL 0

def currentState1 : Multivector := drain PSI_NULL opChan1

/-- Second scripted step: Genesis toward `PSI_ACTIVE`, 50 steps. -/
def opChan2 : List Multivector := GenesisOperator.Apply currentState1 PSI_ACTIVE 50

def currentState2 : Multivector := drain currentState1 opChan2

/-- Third scripted step: Quench toward `PSI_NULL`, 20 steps. -/
def opChan3 : List Multivector := QuenchingOperator.Apply currentState2 PSI_NULL 20

def currentState3 : Multivector := drain currentState2 opChan3

/-- main.go declares `var simHistory []Multivector` with the comment "Save
history for rendering later", but never appends to it: it stays empty for
the whole run. -/
def simHistory : List Multivector := []

/-- The States the scripted sequence emits, in order — what `simHistory`
would contain if every emitted State were appended, as the spec's §4.4 and
the code's own "Save history" comment describe. -/
def scriptedEmissions : List Multivector := opChan1 ++ opChan2 ++ opChan3

/-! ### Spec-side definitions (written from the spec's words, for comparison
with the code's behaviour) -/

/-- The spec's `round(...)`: round to the nearest integer (ties are not
exercised by any input below, so the tie rule is irrelevant). -/
def specRound (q : ℚ) : ℤ := ⌊q + 1/2⌋

/-- The spec's clamp to [0,255]. -/
def specClamp (z : ℤ) : ℤ := max 0 (min 255 z)

/-- §4.1's emitted value: `round(value_initial*(1-t) + value_target*t)`,
clamped to [0,255], with `t = i/n`. -/
def specLerpValue (a b : ℚ) (i n : ℕ) : ℤ :=
  specClamp (specRound (a * (1 - (i : ℚ) / (n : ℚ)) + b * ((i : ℚ) / (n : ℚ))))

/-- §4.2's emitted value: `target_value + (initial_value - target_value) *
decay(t)` with `decay(t) = (1-t)³`, clamped to [0,255] and rounded. -/
def specDecayValue (tv iv : ℚ) (i n : ℕ) : ℤ :=
  specClamp (specRound (tv + (iv - tv) * (1 - (i : ℚ) / (n : ℚ)) ^ 3))

/-- `initial` and `target` live over one common domain: all four grids share
their bounds (the spec's domain invariant, §3). -/
def sameDomain (a b : Multivector) : Prop :=
  a.Energy.rect = a.Geometry.rect ∧ b.Geometry.rect = a.Geometry.rect ∧
    b.Energy.rect = a.Geometry.rect

instance (a b : Multivector) : Decidable (sameDomain a b) := by
  unfold sameDomain; infer_instance

/-- Cell-for-cell equality of two states: both grids agree at every point
(outside the bounds both read the zero color). -/
def cellEq (a b : Multivector) : Prop :=
  ∀ x y : ℤ, a.Geometry.At x y = b.Geometry.At x y ∧ a.Energy.At x y = b.Energy.At x y

/-! ### A buffer-identity model for the Potentiality copy

The value-level model above cannot talk about aliasing, so the deep-copy
part of the Potentiality contract is settled against this small heap model:
a `Heap` maps Pix-buffer identities to contents, `image.NewAlpha` /
`image.NewGray` allocate fresh identities, and `copy(dst.Pix, src.Pix)`
copies contents between identities. -/

/-- An image as a bounds rectangle plus the identity of its Pix buffer. -/
structure ImageH where
  rect : Rect
  pixId : ℕ

structure MultivectorH where
  Name : String
  Geometry : ImageH
  Energy : ImageH

/-- The allocator state: buffer contents and the next fresh identity. -/
structure Heap where
  buf : ℕ → ℤ → ℤ → Fin 256
  next : ℕ

/-- `image.NewAlpha` / `image.NewGray`: a fresh zeroed buffer. -/
def Heap.alloc (h : Heap) (r : Rect) : ImageH × Heap :=
  (⟨r, h.next⟩, ⟨fun id => if id = h.next then fun _ _ => 0 else h.buf id, h.next + 1⟩)

/-- `newMultivector` in the heap model: two fresh zeroed buffers. -/
def newMultivectorH (h : Heap) (name : String) (bounds : Rect) : MultivectorH × Heap :=
  let (g, h1) := h.alloc bounds
  let (e, h2) := h1.alloc bounds
  (⟨name, g, e⟩, h2)

/-- `copy(dst.Pix, src.Pix)` between same-size buffers. -/
def Heap.copyPix (h : Heap) (dst src : ℕ) : Heap :=
  ⟨fun id => if id = dst then h.buf src else h.buf id, h.next⟩

/-- A later in-place mutation of one pixel of buffer `id` (what "mutating the
emitted State's grids afterwards" does). -/
def Heap.write (h : Heap) (id : ℕ) (x y : ℤ) (v : Fin 256) : Heap :=
  ⟨fun i => if i = id then (fun a b => if a = x ∧ b = y then v else h.buf id a b) else h.buf i,
   h.next⟩

/-- `PotentialityOperator.Apply` in the heap model: allocate a fresh
Multivector over `target.Geometry`'s bounds and byte-copy both Pix buffers
from `target`. -/
def PotentialityOperator.ApplyH (h : Heap) (initial target : MultivectorH)
    (durationSteps : ℤ) : List MultivectorH × Heap :=
  let (targetCopy, h1) := newMultivectorH h target.Name target.Geometry.rect
  let h2 := h1.copyPix targetCopy.Geometry.pixId target.Geometry.pixId
  let h3 := h2.copyPix targetCopy.Energy.pixId target.Energy.pixId
  ([targetCopy], h3)

/-! ### Small concrete states used by counterexamples and witnesses -/

/-- A 1×1 domain. -/
def r11 : Rect := ⟨0, 0, 1, 1⟩

/-- A 1×1 state with full coverage and full intensity. -/
def mvFull : Multivector :=
  { Name := "full", Geometry := ⟨r11, fun _ _ => 255⟩, Energy := ⟨r11, fun _ _ => 255⟩ }

/-- A 1×1 zero state. -/
def mvZero : Multivector := newMultivector "zero" r11

/-- A state over a different, disjoint domain. -/
def mvOther : Multivector :=
  { Name := "other", Geometry := ⟨⟨5, 5, 6, 6⟩, fun _ _ => 7⟩,
    Energy := ⟨⟨5, 5, 6, 6⟩, fun _ _ => 7⟩ }

/-- "The computed value `v` is a finite float in `[lo, hi] ⊆ [0, 255]`, and
converting it to `uint8` is plain truncation — the low-byte step (`% 256`)
never changes it, i.e. the conversion cannot wrap around." -/
def NoWrap (v : FVal) (lo hi : ℚ) : Prop :=
  ∃ q : ℚ, v = some q ∧ lo ≤ q ∧ q ≤ hi ∧ 0 ≤ q ∧ q ≤ 255 ∧
    ((f2u8 v : ℕ) : ℤ) = qtrunc q

/-! ### Evaluation lemmas for the float model -/

theorem FVal.div_some (a : ℚ) {b : ℚ} (hb : b ≠ 0) :
    FVal.div (some a) (some b) = some (a / b) := by
  simp [FVal.div, hb]

theorem lerpVal_some (valA valB : Fin 256) (t : ℚ) :
    lerpVal valA valB (some t) = some (((valA : ℕ) : ℚ) * (1 - t) + ((valB : ℕ) : ℚ) * t) := rfl

theorem decayVal_some (valA valB : Fin 256) (d : ℚ) :
    decayVal valA valB (some d) =
      some (((valA : ℕ) : ℚ) + (((valB : ℕ) : ℚ) - ((valA : ℕ) : ℚ)) * d) := rfl

theorem lerpVal_none (valA valB : Fin 256) : lerpVal valA valB none = none := rfl

theorem decayVal_none (valA valB : Fin 256) : decayVal valA valB none = none := rfl

theorem FVal.pow3_none : FVal.pow3 (FVal.sub (some 1) none) = none := rfl

theorem f2u8_none : f2u8 none = 0 := rfl

theorem qtrunc_of_nonneg {q : ℚ} (h : 0 ≤ q) : qtrunc q = ⌊q⌋ := if_pos h

/-- Evaluating the uint8 conversion when the floor is known and in range. -/
theorem f2u8_some_eq {q : ℚ} {k : ℕ} (h0 : 0 ≤ q) (hk : k < 256) (hfl : ⌊q⌋ = (k : ℤ)) :
    f2u8 (some q) = ⟨k, hk⟩ := by
  apply Fin.ext
  show ((qtrunc q) % 256).toNat = k
  rw [qtrunc_of_nonneg h0, hfl]
  omega

/-- Converting an exact channel value is the identity: this is why the
operators hit their endpoints exactly. -/
theorem f2u8_coe (a : Fin 256) : f2u8 (some ((a : ℕ) : ℚ)) = a := by
  have h := f2u8_some_eq (q := ((a : ℕ) : ℚ)) (k := (a : ℕ)) (Nat.cast_nonneg _) a.isLt
    (by exact_mod_cast Int.floor_natCast (α := ℚ) (a : ℕ))
  simpa using h

/-! ### The emitted step lists -/

theorem stepIdxs_of_nonneg {n : ℤ} (h : 0 ≤ n) :
    stepIdxs n = (List.range (n.toNat + 1)).map (fun (k : ℕ) => (k : ℤ)) := if_pos h

theorem stepIdxs_of_neg {n : ℤ} (h : n < 0) : stepIdxs n = [] := if_neg (by omega)

theorem stepIdxs_length {n : ℤ} (h : 0 ≤ n) : (stepIdxs n).length = n.toNat + 1 := by
  rw [stepIdxs_of_nonneg h, List.length_map, List.length_range]

theorem stepIdxs_getElem? {n : ℤ} (h : 0 ≤ n) {i : ℕ} (hi : i ≤ n.toNat) :
    (stepIdxs n)[i]? = some ((i : ℤ)) := by
  rw [stepIdxs_of_nonneg h, List.getElem?_map, List.getElem?_range (Nat.lt_succ_of_le hi)]
  rfl

theorem genesisApply_length (a b : Multivector) {n : ℤ} (h : 0 ≤ n) :
    (GenesisOperator.Apply a b n).length = n.toNat + 1 := by
  simp only [GenesisOperator.Apply, List.length_map]
  exact stepIdxs_length h

theorem genesisApply_getElem? (a b : Multivector) {n : ℤ} (h : 0 ≤ n)
    {i : ℕ} (hi : i ≤ n.toNat) :
    (GenesisOperator.Apply a b n)[i]? = some (GenesisOperator.step a b n (i : ℤ)) := by
  simp only [GenesisOperator.Apply, List.getElem?_map, stepIdxs_getElem? h hi,
    Option.map_some']

theorem quenchApply_length (a b : Multivector) {n : ℤ} (h : 0 ≤ n) :
    (QuenchingOperator.Apply a b n).length = n.toNat + 1 := by
  simp only [QuenchingOperator.Apply, List.length_map]
  exact stepIdxs_length h

theorem quenchApply_getElem? (a b : Multivector) {n : ℤ} (h : 0 ≤ n)
    {i : ℕ} (hi : i ≤ n.toNat) :
    (QuenchingOperator.Apply a b n)[i]? = some (QuenchingOperator.step a b n (i : ℤ)) := by
  simp only [QuenchingOperator.Apply, List.getElem?_map, stepIdxs_getElem? h hi,
    Option.map_some']

/-! ### Per-cell shapes of the emitted states -/

theorem genesisStep_at_geom (a b : Multivector) (n i x y : ℤ) :
    (GenesisOperator.step a b n i).Geometry.At x y =
      if a.Geometry.rect.contains x y then
        f2u8 (lerpVal (a.Geometry.At x y) (b.Geometry.At x y) (tFactor n i))
      else 0 := by
  by_cases h : a.Geometry.rect.contains x y <;>
    simp [GenesisOperator.step, Image.At, h]

theorem genesisStep_at_energy (a b : Multivector) (n i x y : ℤ) :
    (GenesisOperator.step a b n i).Energy.At x y =
      if a.Geometry.rect.contains x y then
        f2u8 (lerpVal (a.Energy.At x y) (b.Energy.At x y) (tFactor n i))
      else 0 := by
  by_cases h : a.Geometry.rect.contains x y <;>
    simp [GenesisOperator.step, Image.At, h]

theorem quenchStep_at_geom (a b : Multivector) (n i x y : ℤ) :
    (QuenchingOperator.step a b n i).Geometry.At x y =
      if a.Geometry.rect.contains x y then
        f2u8 (decayVal (b.Geometry.At x y) (a.Geometry.At x y) (decayFactor (tFactor n i)))
      else 0 := by
  by_cases h : a.Geometry.rect.contains x y <;>
    simp [QuenchingOperator.step, Image.At, h]

theorem quenchStep_at_energy (a b : Multivector) (n i x y : ℤ) :
    (QuenchingOperator.step a b n i).Energy.At x y =
      if a.Geometry.rect.contains x y then
        f2u8 (decayVal (b.Energy.At x y) (a.Energy.At x y) (decayFactor (tFactor n i)))
      else 0 := by
  by_cases h : a.Geometry.rect.contains x y <;>
    simp [QuenchingOperator.step, Image.At, h]

/-- Outside its own bounds an image reads the zero color. -/
theorem Image.At_of_not_contains {img : Image} {x y : ℤ} (h : ¬ img.rect.contains x y) :
    img.At x y = 0 := if_neg h

/-! ### Endpoint values of `t`, the decay factor and the blends -/

theorem tFactor_zero {n : ℤ} (hn : n ≠ 0) : tFactor n 0 = some 0 := by
  unfold tFactor
  rw [Int.cast_zero, FVal.div_some _ (show ((n : ℚ)) ≠ 0 by exact_mod_cast hn)]
  norm_num

theorem tFactor_self {n : ℤ} (hn : n ≠ 0) : tFactor n n = some 1 := by
  unfold tFactor
  rw [FVal.div_some _ (show ((n : ℚ)) ≠ 0 by exact_mod_cast hn),
    div_self (show ((n : ℚ)) ≠ 0 by exact_mod_cast hn)]

/-- With `durationSteps = 0` the loop's only iteration computes
`t = 0.0/0.0 = NaN`. -/
theorem tFactor_zero_zero : tFactor 0 0 = none := by
  unfold tFactor
  simp [FVal.div]

theorem decayFactor_some (t : ℚ) : decayFactor (some t) = some ((1 - t) ^ 3) := rfl

theorem decayFactor_none : decayFactor none = none := rfl

theorem decayFactor_at_zero : decayFactor (some 0) = some 1 := by
  rw [decayFactor_some]; norm_num

theorem decayFactor_at_one : decayFactor (some 1) = some 0 := by
  rw [decayFactor_some]; norm_num

theorem lerpVal_at_zero (va vb : Fin 256) : lerpVal va vb (some 0) = some ((va : ℕ) : ℚ) := by
  rw [lerpVal_some]; norm_num

theorem lerpVal_at_one (va vb : Fin 256) : lerpVal va vb (some 1) = some ((vb : ℕ) : ℚ) := by
  rw [lerpVal_some]; norm_num

theorem decayVal_at_one (va vb : Fin 256) : decayVal va vb (some 1) = some ((vb : ℕ) : ℚ) := by
  rw [decayVal_some]; congr 1; ring

theorem decayVal_at_zero (va vb : Fin 256) : decayVal va vb (some 0) = some ((va : ℕ) : ℚ) := by
  rw [decayVal_some]; norm_num

/-- Emission 0 of Genesis (with a nonzero step count) equals `initial`
cell-for-cell. -/
theorem genesisStep_zero_cellEq (a b : Multivector) {n : ℤ} (hn : n ≠ 0)
    (hd : sameDomain a b) : cellEq (GenesisOperator.step a b n 0) a := by
  obtain ⟨hae, hbg, hbe⟩ := hd
  intro x y
  constructor
  · rw [genesisStep_at_geom]
    by_cases h : a.Geometry.rect.contains x y
    · rw [if_pos h, tFactor_zero hn, lerpVal_at_zero, f2u8_coe]
    · rw [if_neg h, Image.At_of_not_contains h]
  · rw [genesisStep_at_energy]
    by_cases h : a.Geometry.rect.contains x y
    · rw [if_pos h, tFactor_zero hn, lerpVal_at_zero, f2u8_coe]
    · rw [if_neg h, Image.At_of_not_contains (show ¬ a.Energy.rect.contains x y by
        rw [hae]; exact h)]

/-- Emission `n` of Genesis equals `target` cell-for-cell. -/
theorem genesisStep_last_cellEq (a b : Multivector) {n : ℤ} (hn : n ≠ 0)
    (hd : sameDomain a b) : cellEq (GenesisOperator.step a b n n) b := by
  obtain ⟨hae, hbg, hbe⟩ := hd
  intro x y
  constructor
  · rw [genesisStep_at_geom]
    by_cases h : a.Geometry.rect.contains x y
    · rw [if_pos h, tFactor_self hn, lerpVal_at_one, f2u8_coe]
    · rw [if_neg h, Image.At_of_not_contains (show ¬ b.Geometry.rect.contains x y by
        rw [hbg]; exact h)]
  · rw [genesisStep_at_energy]
    by_cases h : a.Geometry.rect.contains x y
    · rw [if_pos h, tFactor_self hn, lerpVal_at_one, f2u8_coe]
    · rw [if_neg h, Image.At_of_not_contains (show ¬ b.Energy.rect.contains x y by
        rw [hbe]; exact h)]

/-- Emission 0 of Quench (decay = 1) equals `initial` cell-for-cell. -/
theorem quenchStep_zero_cellEq (a b : Multivector) {n : ℤ} (hn : n ≠ 0)
    (hd : sameDomain a b) : cellEq (QuenchingOperator.step a b n 0) a := by
  obtain ⟨hae, hbg, hbe⟩ := hd
  intro x y
  constructor
  · rw [quenchStep_at_geom]
    by_cases h : a.Geometry.rect.contains x y
    · rw [if_pos h, tFactor_zero hn, decayFactor_at_zero, decayVal_at_one, f2u8_coe]
    · rw [if_neg h, Image.At_of_not_contains h]
  · rw [quenchStep_at_energy]
    by_cases h : a.Geometry.rect.contains x y
    · rw [if_pos h, tFactor_zero hn, decayFactor_at_zero, decayVal_at_one, f2u8_coe]
    · rw [if_neg h, Image.At_of_not_contains (show ¬ a.Energy.rect.contains x y by
        rw [hae]; exact h)]

/-- Emission `n` of Quench (decay = 0) equals `target` cell-for-cell. -/
theorem quenchStep_last_cellEq (a b : Multivector) {n : ℤ} (hn : n ≠ 0)
    (hd : sameDomain a b) : cellEq (QuenchingOperator.step a b n n) b := by
  obtain ⟨hae, hbg, hbe⟩ := hd
  intro x y
  constructor
  · rw [quenchStep_at_geom]
    by_cases h : a.Geometry.rect.contains x y
    · rw [if_pos h, tFactor_self hn, decayFactor_at_one, decayVal_at_zero, f2u8_coe]
    · rw [if_neg h, Image.At_of_not_contains (show ¬ b.Geometry.rect.contains x y by
        rw [hbg]; exact h)]
  · rw [quenchStep_at_energy]
    by_cases h : a.Geometry.rect.contains x y
    · rw [if_pos h, tFactor_self hn, decayFactor_at_one, decayVal_at_zero, f2u8_coe]
    · rw [if_neg h, Image.At_of_not_contains (show ¬ b.Energy.rect.contains x y by
        rw [hbe]; exact h)]

/-! ### Range safety of the blends -/

/-- A convex blend lies between its endpoints. -/
theorem blend_between {a b t : ℚ} (h0 : 0 ≤ t) (h1 : t ≤ 1) :
    min a b ≤ a * (1 - t) + b * t ∧ a * (1 - t) + b * t ≤ max a b := by
  rcases le_total a b with h | h
  · rw [min_eq_left h, max_eq_right h]
    constructor <;> nlinarith
  · rw [min_eq_right h, max_eq_left h]
    constructor <;> nlinarith

theorem tFactor_bounds {n i : ℤ} (hn : 1 ≤ n) (h0 : 0 ≤ i) (hi : i ≤ n) :
    ∃ t : ℚ, tFactor n i = some t ∧ 0 ≤ t ∧ t ≤ 1 := by
  have hnpos : (0 : ℚ) < ((n : ℚ)) := by exact_mod_cast (show (0:ℤ) < n by omega)
  refine ⟨(i : ℚ) / (n : ℚ), ?_, div_nonneg (by exact_mod_cast h0) hnpos.le, ?_⟩
  · unfold tFactor; rw [FVal.div_some _ hnpos.ne']
  · rw [div_le_one hnpos]; exact_mod_cast hi

theorem decay_pow_bounds {t : ℚ} (h0 : 0 ≤ t) (h1 : t ≤ 1) :
    0 ≤ (1 - t) ^ 3 ∧ (1 - t) ^ 3 ≤ 1 := by
  constructor
  · exact pow_nonneg (by linarith) 3
  · exact pow_le_one₀ (by linarith) (by linarith)

theorem fin_cast_bounds (v : Fin 256) : (0 : ℚ) ≤ ((v : ℕ) : ℚ) ∧ ((v : ℕ) : ℚ) ≤ 255 :=
  ⟨Nat.cast_nonneg _, by exact_mod_cast Nat.lt_succ_iff.mp v.isLt⟩

theorem lerp_in_0_255 (va vb : Fin 256) {t : ℚ} (h0 : 0 ≤ t) (h1 : t ≤ 1) :
    0 ≤ ((va : ℕ) : ℚ) * (1 - t) + ((vb : ℕ) : ℚ) * t ∧
      ((va : ℕ) : ℚ) * (1 - t) + ((vb : ℕ) : ℚ) * t ≤ 255 := by
  obtain ⟨hmin, hmax⟩ := blend_between (a := ((va : ℕ) : ℚ)) (b := ((vb : ℕ) : ℚ)) h0 h1
  obtain ⟨ha0, ha1⟩ := fin_cast_bounds va
  obtain ⟨hb0, hb1⟩ := fin_cast_bounds vb
  exact ⟨le_trans (le_min ha0 hb0) hmin, le_trans hmax (max_le ha1 hb1)⟩

theorem decay_in_0_255 (va vb : Fin 256) {d : ℚ} (h0 : 0 ≤ d) (h1 : d ≤ 1) :
    0 ≤ ((va : ℕ) : ℚ) + (((vb : ℕ) : ℚ) - ((va : ℕ) : ℚ)) * d ∧
      ((va : ℕ) : ℚ) + (((vb : ℕ) : ℚ) - ((va : ℕ) : ℚ)) * d ≤ 255 := by
  have heq : ((va : ℕ) : ℚ) + (((vb : ℕ) : ℚ) - ((va : ℕ) : ℚ)) * d =
      ((va : ℕ) : ℚ) * (1 - d) + ((vb : ℕ) : ℚ) * d := by ring
  rw [heq]
  exact lerp_in_0_255 va vb h0 h1

/-- Inside [0,255] the uint8 conversion is plain truncation toward zero:
the `% 256` (low-byte) step never changes the value, i.e. no wrap-around. -/
theorem f2u8_of_in_range {q : ℚ} (h0 : 0 ≤ q) (h255 : q ≤ 255) :
    ((f2u8 (some q) : ℕ) : ℤ) = qtrunc q := by
  show (((qtrunc q) % 256).toNat : ℤ) = qtrunc q
  have h1 : 0 ≤ qtrunc q := by
    rw [qtrunc_of_nonneg h0]; exact Int.floor_nonneg.mpr h0
  have h2 : qtrunc q ≤ 255 := by
    rw [qtrunc_of_nonneg h0]
    calc ⌊q⌋ ≤ ⌊(255 : ℚ)⌋ := Int.floor_le_floor h255
    _ = 255 := by norm_num
  omega

/-! ### Evaluation facts for the concrete states -/

theorem mvFull_geom_at : mvFull.Geometry.At 0 0 = 255 := by decide

theorem mvZero_geom_at : mvZero.Geometry.At 0 0 = 0 := by decide

theorem fin255_cast : (((255 : Fin 256) : ℕ) : ℚ) = 255 := by
  norm_num [show ((255 : Fin 256) : ℕ) = 255 from rfl]

theorem fin0_cast : (((0 : Fin 256) : ℕ) : ℚ) = 0 := by
  norm_num [show ((0 : Fin 256) : ℕ) = 0 from rfl]

/-- `t = i/N` for natural step data, after the integer casts of the loop. -/
theorem tFactor_cast {N : ℕ} (i : ℕ) (hN : N ≠ 0) :
    tFactor ((N : ℤ)) ((i : ℤ)) = some ((i : ℚ) / (N : ℚ)) := by
  unfold tFactor
  rw [FVal.div_some _ (show ((((N : ℤ)) : ℚ)) ≠ 0 by exact_mod_cast hN)]
  norm_num

theorem tQ_bounds {i N : ℕ} (hN : 1 ≤ N) (hi : i ≤ N) :
    0 ≤ (i : ℚ) / (N : ℚ) ∧ (i : ℚ) / (N : ℚ) ≤ 1 := by
  have hNpos : (0 : ℚ) < (N : ℚ) := by exact_mod_cast (show 0 < N by omega)
  exact ⟨div_nonneg (Nat.cast_nonneg _) hNpos.le,
    by rw [div_le_one hNpos]; exact_mod_cast hi⟩

/-! ### Claim C1 -/

/-- C1, counterexample: on a 1×1 domain with initial coverage 255 and target
coverage 0, at step i = 1 of N = 2 the Quench operator emits coverage
`uint8(255/8) = 31`, while the claim's clamped-and-rounded value is 32 —
the code truncates, it does not round. -/
theorem C1_counterexample :
    ((QuenchingOperator.Apply mvFull mvZero 2)[1]?.map (fun s => (s.Geometry.At 0 0 : ℕ)))
        = some 31 ∧
    specDecayValue ((mvZero.Geometry.At 0 0 : ℕ) : ℚ) ((mvFull.Geometry.At 0 0 : ℕ) : ℚ) 1 2
        = 32 ∧
    ((31 : ℕ) : ℤ) ≠ 32 := by
  refine ⟨?_, ?_, by norm_num⟩
  · rw [show (2 : ℤ) = ((2 : ℕ) : ℤ) from rfl,
      quenchApply_getElem? mvFull mvZero (by omega) (i := 1) (by omega),
      Option.map_some']
    simp only [Option.some.injEq]
    rw [quenchStep_at_geom,
      if_pos (show mvFull.Geometry.rect.contains 0 0 by decide),
      mvZero_geom_at, mvFull_geom_at, tFactor_cast 1 (by omega), decayFactor_some,
      decayVal_some]
    rw [f2u8_some_eq (k := 31) (by norm_num [fin255_cast, fin0_cast]) (by norm_num)
      (by norm_num [fin255_cast, fin0_cast])]
  · rw [mvZero_geom_at, mvFull_geom_at]
    unfold specDecayValue specClamp specRound
    rw [(by norm_num [fin255_cast, fin0_cast] :
      (⌊(((0 : Fin 256) : ℕ) : ℚ) +
        ((((255 : Fin 256) : ℕ) : ℚ) - (((0 : Fin 256) : ℕ) : ℚ)) *
          (1 - ((1 : ℕ) : ℚ) / ((2 : ℕ) : ℚ)) ^ 3 + 1 / 2⌋ : ℤ) = 32)]
    norm_num

/-- C1, amended: the Quench emission at step i of N ≥ 1 carries, per cell,
`target + (initial - target) * (1-i/N)³` truncated toward zero (not rounded;
the value already lies in [0,255] so no clamping ever engages), and the
emissions at i = 0 and i = N equal `initial` resp. `target` exactly. -/
theorem C1_amended (a b : Multivector) {N : ℕ} (hN : 1 ≤ N) :
    (QuenchingOperator.Apply a b (N : ℤ)).length = N + 1 ∧
    (∀ i : ℕ, i ≤ N → ∃ s, (QuenchingOperator.Apply a b (N : ℤ))[i]? = some s ∧
      ∀ x y : ℤ, a.Geometry.rect.contains x y →
        ((s.Geometry.At x y : ℕ) : ℤ) =
          qtrunc (((b.Geometry.At x y : ℕ) : ℚ) +
            (((a.Geometry.At x y : ℕ) : ℚ) - ((b.Geometry.At x y : ℕ) : ℚ)) *
              (1 - (i : ℚ) / (N : ℚ)) ^ 3) ∧
        ((s.Energy.At x y : ℕ) : ℤ) =
          qtrunc (((b.Energy.At x y : ℕ) : ℚ) +
            (((a.Energy.At x y : ℕ) : ℚ) - ((b.Energy.At x y : ℕ) : ℚ)) *
              (1 - (i : ℚ) / (N : ℚ)) ^ 3)) ∧
    (sameDomain a b →
      (∃ s, (QuenchingOperator.Apply a b (N : ℤ))[0]? = some s ∧ cellEq s a) ∧
      (∃ s, (QuenchingOperator.Apply a b (N : ℤ))[N]? = some s ∧ cellEq s b)) := by
  have h0N : (0 : ℤ) ≤ (N : ℤ) := by omega
  have hNz : ((N : ℤ)) ≠ 0 := by omega
  refine ⟨?_, ?_, ?_⟩
  · rw [quenchApply_length a b h0N]; omega
  · intro i hi
    refine ⟨_, quenchApply_getElem? a b h0N (show i ≤ (N : ℤ).toNat by omega), ?_⟩
    intro x y hxy
    obtain ⟨ht0, ht1⟩ := tQ_bounds hN hi
    obtain ⟨hd0, hd1⟩ := decay_pow_bounds ht0 ht1
    constructor
    · rw [quenchStep_at_geom, if_pos hxy, tFactor_cast i (by omega),
        decayFactor_some, decayVal_some]
      exact f2u8_of_in_range (decay_in_0_255 _ _ hd0 hd1).1 (decay_in_0_255 _ _ hd0 hd1).2
    · rw [quenchStep_at_energy, if_pos hxy, tFactor_cast i (by omega),
        decayFactor_some, decayVal_some]
      exact f2u8_of_in_range (decay_in_0_255 _ _ hd0 hd1).1 (decay_in_0_255 _ _ hd0 hd1).2
  · intro hd
    constructor
    · exact ⟨_, quenchApply_getElem? a b h0N (show 0 ≤ (N : ℤ).toNat by omega),
        quenchStep_zero_cellEq a b hNz hd⟩
    · exact ⟨_, quenchApply_getElem? a b h0N (show N ≤ (N : ℤ).toNat by omega),
        quenchStep_last_cellEq a b hNz hd⟩

theorem C1_witness :
    1 ≤ 2 ∧ (QuenchingOperator.Apply mvFull mvZero ((2 : ℕ) : ℤ)).length = 2 + 1 :=
  ⟨by norm_num, (C1_amended mvFull mvZero (by norm_num)).1⟩

/-! ### Claim C6 -/

/-- C6, counterexample: on a 1×1 domain with initial coverage 0 and target
coverage 255, at step i = 1 of N = 2 the Genesis operator emits coverage
`uint8(127.5) = 127`, while the claim's `round(...)` value is 128 — the code
truncates, it does not round. -/
theorem C6_counterexample :
    ((GenesisOperator.Apply mvZero mvFull 2)[1]?.map (fun s => (s.Geometry.At 0 0 : ℕ)))
        = some 127 ∧
    specLerpValue ((mvZero.Geometry.At 0 0 : ℕ) : ℚ) ((mvFull.Geometry.At 0 0 : ℕ) : ℚ) 1 2
        = 128 ∧
    ((127 : ℕ) : ℤ) ≠ 128 := by
  refine ⟨?_, ?_, by norm_num⟩
  · rw [show (2 : ℤ) = ((2 : ℕ) : ℤ) from rfl,
      genesisApply_getElem? mvZero mvFull (by omega) (i := 1) (by omega),
      Option.map_some']
    simp only [Option.some.injEq]
    rw [genesisStep_at_geom,
      if_pos (show mvZero.Geometry.rect.contains 0 0 by decide),
      mvZero_geom_at, mvFull_geom_at, tFactor_cast 1 (by omega), lerpVal_some]
    rw [f2u8_some_eq (k := 127) (by norm_num [fin255_cast, fin0_cast]) (by norm_num)
      (by norm_num [fin255_cast, fin0_cast])]
  · rw [mvZero_geom_at, mvFull_geom_at]
    unfold specLerpValue specClamp specRound
    rw [(by norm_num [fin255_cast, fin0_cast] :
      (⌊(((0 : Fin 256) : ℕ) : ℚ) * (1 - ((1 : ℕ) : ℚ) / ((2 : ℕ) : ℚ)) +
        ((((255 : Fin 256) : ℕ)) : ℚ) * (((1 : ℕ) : ℚ) / ((2 : ℕ) : ℚ)) + 1 / 2⌋ : ℤ) = 128)]
    norm_num

/-- C6, amended: at each step i of N ≥ 1 the Genesis emission carries, per
cell, `initial*(1-t) + target*t` (t = i/N) truncated toward zero — not
rounded to nearest; the value already lies in [0,255], so the (absent)
clamp never matters. -/
theorem C6_amended (a b : Multivector) {N : ℕ} (hN : 1 ≤ N) :
    ∀ i : ℕ, i ≤ N → ∃ s, (GenesisOperator.Apply a b (N : ℤ))[i]? = some s ∧
      ∀ x y : ℤ, a.Geometry.rect.contains x y →
        ((s.Geometry.At x y : ℕ) : ℤ) =
          qtrunc (((a.Geometry.At x y : ℕ) : ℚ) * (1 - (i : ℚ) / (N : ℚ)) +
                  ((b.Geometry.At x y : ℕ) : ℚ) * ((i : ℚ) / (N : ℚ))) ∧
        ((s.Energy.At x y : ℕ) : ℤ) =
          qtrunc (((a.Energy.At x y : ℕ) : ℚ) * (1 - (i : ℚ) / (N : ℚ)) +
                  ((b.Energy.At x y : ℕ) : ℚ) * ((i : ℚ) / (N : ℚ))) := by
  have h0N : (0 : ℤ) ≤ (N : ℤ) := by omega
  intro i hi
  refine ⟨_, genesisApply_getElem? a b h0N (show i ≤ (N : ℤ).toNat by omega), ?_⟩
  intro x y hxy
  obtain ⟨ht0, ht1⟩ := tQ_bounds hN hi
  constructor
  · rw [genesisStep_at_geom, if_pos hxy, tFactor_cast i (by omega), lerpVal_some]
    exact f2u8_of_in_range (lerp_in_0_255 _ _ ht0 ht1).1 (lerp_in_0_255 _ _ ht0 ht1).2
  · rw [genesisStep_at_energy, if_pos hxy, tFactor_cast i (by omega), lerpVal_some]
    exact f2u8_of_in_range (lerp_in_0_255 _ _ ht0 ht1).1 (lerp_in_0_255 _ _ ht0 ht1).2

theorem C6_witness :
    1 ≤ 2 ∧ ((GenesisOperator.Apply mvZero mvFull ((2 : ℕ) : ℤ))[1]?).isSome = true := by
  refine ⟨by norm_num, ?_⟩
  obtain ⟨s, hs, -⟩ := C6_amended (N := 2) mvZero mvFull (by norm_num) 1 (by norm_num)
  rw [hs]
  rfl

/-! ### Claim C2 -/

/-- With `durationSteps = 0`, the single Genesis loop iteration computes
`t = NaN` and every stored channel is `uint8(NaN) = 0`. -/
theorem genesisStep_nan (a b : Multivector) (x y : ℤ) :
    (GenesisOperator.step a b 0 0).Geometry.At x y = 0 ∧
    (GenesisOperator.step a b 0 0).Energy.At x y = 0 := by
  constructor
  · rw [genesisStep_at_geom]
    by_cases h : a.Geometry.rect.contains x y
    · rw [if_pos h, tFactor_zero_zero, lerpVal_none, f2u8_none]
    · rw [if_neg h]
  · rw [genesisStep_at_energy]
    by_cases h : a.Geometry.rect.contains x y
    · rw [if_pos h, tFactor_zero_zero, lerpVal_none, f2u8_none]
    · rw [if_neg h]

/-- Same NaN collapse for the Quench loop at `durationSteps = 0`. -/
theorem quenchStep_nan (a b : Multivector) (x y : ℤ) :
    (QuenchingOperator.step a b 0 0).Geometry.At x y = 0 ∧
    (QuenchingOperator.step a b 0 0).Energy.At x y = 0 := by
  constructor
  · rw [quenchStep_at_geom]
    by_cases h : a.Geometry.rect.contains x y
    · rw [if_pos h, tFactor_zero_zero, decayFactor_none, decayVal_none, f2u8_none]
    · rw [if_neg h]
  · rw [quenchStep_at_energy]
    by_cases h : a.Geometry.rect.contains x y
    · rw [if_pos h, tFactor_zero_zero, decayFactor_none, decayVal_none, f2u8_none]
    · rw [if_neg h]

theorem genesisApply_zero (a b : Multivector) :
    GenesisOperator.Apply a b 0 = [GenesisOperator.step a b 0 0] := by
  simp [GenesisOperator.Apply, stepIdxs, List.range_succ, Function.comp]

theorem quenchApply_zero (a b : Multivector) :
    QuenchingOperator.Apply a b 0 = [QuenchingOperator.step a b 0 0] := by
  simp [QuenchingOperator.Apply, stepIdxs, List.range_succ, Function.comp]

/-- C2, counterexample: at `durationSteps = 0` (allowed by the claim's
`N ≥ 0`) with a 1×1 initial = target of coverage 255, the single Genesis
emission has coverage 0 — it equals neither `initial` nor `target`, because
`t = 0/0` is NaN and `uint8(NaN) = 0`. -/
theorem C2_counterexample :
    (GenesisOperator.Apply mvFull mvFull 0).length = 1 ∧
    ((GenesisOperator.Apply mvFull mvFull 0)[0]?.map (fun s => (s.Geometry.At 0 0 : ℕ)))
        = some 0 ∧
    (mvFull.Geometry.At 0 0 : ℕ) = 255 := by
  refine ⟨?_, ?_, by decide⟩
  · rw [genesisApply_zero]
    rfl
  · rw [genesisApply_zero]
    simp only [List.getElem?_cons_zero, Option.map_some', Option.some.injEq]
    rw [(genesisStep_nan mvFull mvFull 0 0).1]
    rfl

/-- C2, amended: for N ≥ 1 the Linear-Approach operator emits exactly N+1
states, and emission 0 equals `initial` and emission N equals `target` —
exactly, not merely up to rounding.  (At N = 0 a single state is still
emitted, but it is the NaN-conversion all-zero state, see C3.) -/
theorem C2_amended (a b : Multivector) {N : ℕ} (hN : 1 ≤ N) (hd : sameDomain a b) :
    (GenesisOperator.Apply a b (N : ℤ)).length = N + 1 ∧
    (∃ s, (GenesisOperator.Apply a b (N : ℤ))[0]? = some s ∧ cellEq s a) ∧
    (∃ s, (GenesisOperator.Apply a b (N : ℤ))[N]? = some s ∧ cellEq s b) := by
  have h0N : (0 : ℤ) ≤ (N : ℤ) := by omega
  have hNz : ((N : ℤ)) ≠ 0 := by omega
  refine ⟨?_, ?_, ?_⟩
  · rw [genesisApply_length a b h0N]; omega
  · exact ⟨_, genesisApply_getElem? a b h0N (show 0 ≤ (N : ℤ).toNat by omega),
      genesisStep_zero_cellEq a b hNz hd⟩
  · exact ⟨_, genesisApply_getElem? a b h0N (show N ≤ (N : ℤ).toNat by omega),
      genesisStep_last_cellEq a b hNz hd⟩

theorem C2_witness :
    1 ≤ 1 ∧ sameDomain mvFull mvZero ∧
      (GenesisOperator.Apply mvFull mvZero ((1 : ℕ) : ℤ)).length = 1 + 1 :=
  ⟨by norm_num, by decide, (C2_amended mvFull mvZero (by norm_num) (by decide)).1⟩

/-! ### Claim C3 -/

/-- The Potentiality emission: exactly one state, cell-for-cell equal to
`target`, carrying `target`'s name.  (`hb` is the domain invariant on
`target`; the Go byte copy of the Energy buffer is positional and assumes
it.) -/
theorem potApply_spec (a b : Multivector) (n : ℤ)
    (hb : b.Energy.rect = b.Geometry.rect) :
    ∃ s, PotentialityOperator.Apply a b n = [s] ∧ cellEq s b ∧ s.Name = b.Name := by
  refine ⟨_, rfl, ?_, rfl⟩
  intro x y
  constructor
  · by_cases h : b.Geometry.rect.contains x y <;> simp [Image.At, h]
  · by_cases h : b.Geometry.rect.contains x y <;> simp [Image.At, hb, h]

/-- C3, counterexample: with `durationSteps = 0` and a 1×1 initial = target
of coverage 255, Quench emits exactly one state — but its coverage is 0
(`uint8(NaN)`), not the endpoint 255. -/
theorem C3_counterexample :
    (QuenchingOperator.Apply mvFull mvFull 0).length = 1 ∧
    ((QuenchingOperator.Apply mvFull mvFull 0)[0]?.map (fun s => (s.Geometry.At 0 0 : ℕ)))
        = some 0 ∧
    (mvFull.Geometry.At 0 0 : ℕ) = 255 := by
  refine ⟨?_, ?_, by decide⟩
  · rw [quenchApply_zero]
    rfl
  · rw [quenchApply_zero]
    simp only [List.getElem?_cons_zero, Option.map_some', Option.some.injEq]
    rw [(quenchStep_nan mvFull mvFull 0 0).1]
    rfl

/-- C3, amended: with `durationSteps = 0` every operator emits exactly one
state; for Instant-Establish that state equals `target` cell-for-cell, but
for Linear-Approach and Non-linear-Decay it is the all-zero-channel state
produced by converting NaN — not the endpoint. -/
theorem C3_amended (a b : Multivector) (hd : sameDomain a b) :
    (GenesisOperator.Apply a b 0).length = 1 ∧
    (QuenchingOperator.Apply a b 0).length = 1 ∧
    (PotentialityOperator.Apply a b 0).length = 1 ∧
    (∃ s, PotentialityOperator.Apply a b 0 = [s] ∧ cellEq s b) ∧
    (∀ s ∈ GenesisOperator.Apply a b 0, ∀ x y : ℤ,
      s.Geometry.At x y = 0 ∧ s.Energy.At x y = 0) ∧
    (∀ s ∈ QuenchingOperator.Apply a b 0, ∀ x y : ℤ,
      s.Geometry.At x y = 0 ∧ s.Energy.At x y = 0) := by
  obtain ⟨hae, hbg, hbe⟩ := hd
  refine ⟨by rw [genesisApply_zero]; rfl,
    by rw [quenchApply_zero]; rfl, rfl, ?_, ?_, ?_⟩
  · obtain ⟨s, hs, hcell, -⟩ :=
      potApply_spec a b 0 (by rw [hbe, hbg])
    exact ⟨s, hs, hcell⟩
  · intro s hs x y
    rw [genesisApply_zero, List.mem_singleton] at hs
    subst hs
    exact genesisStep_nan a b x y
  · intro s hs x y
    rw [quenchApply_zero, List.mem_singleton] at hs
    subst hs
    exact quenchStep_nan a b x y

theorem C3_witness :
    sameDomain mvFull mvFull ∧ (GenesisOperator.Apply mvFull mvFull 0).length = 1 :=
  ⟨by decide, (C3_amended mvFull mvFull (by decide)).1⟩

/-! ### Claim C4 -/

/-- C4, counterexample: with a 1×1 `initial` and a `target` over a different
domain, Genesis and Quench do not fail — each produces its full 2-state
sequence (step count 1). -/
theorem C4_counterexample :
    mvFull.Geometry.rect ≠ mvOther.Geometry.rect ∧
    (GenesisOperator.Apply mvFull mvOther 1).length = 2 ∧
    (QuenchingOperator.Apply mvFull mvOther 1).length = 2 := by
  refine ⟨by decide, ?_, ?_⟩
  · rw [genesisApply_length mvFull mvOther (by omega)]; rfl
  · rw [quenchApply_length mvFull mvOther (by omega)]; rfl

/-- C4, amended: no operator checks the domains at all.  With any pair of
states — matching bounds or not — the full sequence is produced (never a
failure), every emitted grid lives over `initial.Geometry`'s bounds, and a
cell outside `target`'s bounds simply reads the zero color: at the final
Genesis step (t = 1, pure target) such a cell is stored as 0. -/
theorem C4_amended (a b : Multivector) {n : ℤ} (hn : 0 ≤ n) :
    (GenesisOperator.Apply a b n).length = n.toNat + 1 ∧
    (QuenchingOperator.Apply a b n).length = n.toNat + 1 ∧
    (PotentialityOperator.Apply a b n).length = 1 ∧
    (∀ s ∈ GenesisOperator.Apply a b n,
      s.Geometry.rect = a.Geometry.rect ∧ s.Energy.rect = a.Geometry.rect) ∧
    (∀ s ∈ QuenchingOperator.Apply a b n,
      s.Geometry.rect = a.Geometry.rect ∧ s.Energy.rect = a.Geometry.rect) ∧
    (1 ≤ n → ∀ x y : ℤ, ¬ b.Geometry.rect.contains x y →
      ∃ s, (GenesisOperator.Apply a b n)[n.toNat]? = some s ∧ s.Geometry.At x y = 0) := by
  refine ⟨genesisApply_length a b hn, quenchApply_length a b hn, rfl,
    ?_, ?_, ?_⟩
  · intro s hs
    obtain ⟨i, -, rfl⟩ := List.mem_map.mp hs
    exact ⟨rfl, rfl⟩
  · intro s hs
    obtain ⟨i, -, rfl⟩ := List.mem_map.mp hs
    exact ⟨rfl, rfl⟩
  · intro h1 x y hxy
    refine ⟨_, genesisApply_getElem? a b hn (le_refl _), ?_⟩
    rw [genesisStep_at_geom]
    by_cases hax : a.Geometry.rect.contains x y
    · rw [if_pos hax, Image.At_of_not_contains hxy,
        show ((n.toNat : ℕ) : ℤ) = n from Int.toNat_of_nonneg hn,
        tFactor_self (by omega), lerpVal_at_one, f2u8_coe]
    · rw [if_neg hax]

theorem C4_witness :
    (0 : ℤ) ≤ 1 ∧ (GenesisOperator.Apply mvFull mvOther 1).length = (1 : ℤ).toNat + 1 :=
  ⟨by norm_num, (C4_amended mvFull mvOther (by norm_num)).1⟩

/-! ### Claim C7 -/

/-- C7, counterexample: with `durationSteps = -1` nothing is rejected —
Genesis and Quench silently return an empty sequence (their loop body never
runs), and Instant-Establish still emits one state, so a state IS produced
despite the "precondition violation". -/
theorem C7_counterexample :
    GenesisOperator.Apply mvFull mvZero (-1) = [] ∧
    QuenchingOperator.Apply mvFull mvZero (-1) = [] ∧
    (PotentialityOperator.Apply mvFull mvZero (-1)).length = 1 := by
  refine ⟨?_, ?_, rfl⟩
  · simp [GenesisOperator.Apply, stepIdxs_of_neg (show (-1 : ℤ) < 0 by norm_num)]
  · simp [QuenchingOperator.Apply, stepIdxs_of_neg (show (-1 : ℤ) < 0 by norm_num)]

/-- C7, amended: no operator validates `durationSteps`.  For negative step
counts Linear-Approach and Non-linear-Decay emit the empty sequence (no
error is reported), and Instant-Establish ignores the argument entirely and
still emits its one state. -/
theorem C7_amended (a b : Multivector) {n : ℤ} (hn : n < 0) :
    GenesisOperator.Apply a b n = [] ∧
    QuenchingOperator.Apply a b n = [] ∧
    (PotentialityOperator.Apply a b n).length = 1 := by
  refine ⟨?_, ?_, rfl⟩
  · simp [GenesisOperator.Apply, stepIdxs_of_neg hn]
  · simp [QuenchingOperator.Apply, stepIdxs_of_neg hn]

theorem C7_witness :
    (-5 : ℤ) < 0 ∧ GenesisOperator.Apply mvFull mvZero (-5) = [] :=
  ⟨by norm_num, (C7_amended mvFull mvZero (by norm_num)).1⟩

/-! ### Claim C5 -/

/-- C5, counterexample: the Potentiality emission does not carry a new name —
it carries exactly the target's name (`newMultivector(target.Name, ...)`):
here both the driver's target and the emitted state are named
"Potential (PSIp)". -/
theorem C5_counterexample :
    ∃ s, PotentialityOperator.Apply PSI_NULL PSI_POTENTIAL 0 = [s] ∧
      s.Name = "Potential (PSIp)" ∧ PSI_POTENTIAL.Name = "Potential (PSIp)" :=
  ⟨_, rfl, rfl, rfl⟩

/-- C5, amended: Instant-Establish emits exactly one state, irrespective of
`initial` and `durationSteps`; its grids are cell-for-cell equal to
`target`'s and live in freshly allocated Pix buffers (so later mutation of
the emitted grids cannot change `target`'s, and vice versa) — but its name
is `target`'s name, not a new one. -/
theorem C5_amended (a b : Multivector) (n : ℤ) (hb : b.Energy.rect = b.Geometry.rect) :
    (∃ s, PotentialityOperator.Apply a b n = [s] ∧ cellEq s b ∧ s.Name = b.Name) ∧
    (∀ (h : Heap) (aH bH : MultivectorH),
      bH.Geometry.pixId < h.next → bH.Energy.pixId < h.next →
      ∃ sH h3, PotentialityOperator.ApplyH h aH bH n = ([sH], h3) ∧
        sH.Geometry.pixId ≠ bH.Geometry.pixId ∧
        sH.Energy.pixId ≠ bH.Energy.pixId ∧
        h3.buf sH.Geometry.pixId = h.buf bH.Geometry.pixId ∧
        h3.buf sH.Energy.pixId = h.buf bH.Energy.pixId ∧
        (∀ x y : ℤ, ∀ v : Fin 256,
          (h3.write sH.Geometry.pixId x y v).buf bH.Geometry.pixId
            = h3.buf bH.Geometry.pixId) ∧
        (∀ x y : ℤ, ∀ v : Fin 256,
          (h3.write sH.Energy.pixId x y v).buf bH.Energy.pixId
            = h3.buf bH.Energy.pixId)) := by
  refine ⟨potApply_spec a b n hb, ?_⟩
  intro h aH bH hg he
  have g1 : ¬ (bH.Geometry.pixId = h.next) := by omega
  have g2 : ¬ (bH.Geometry.pixId = h.next + 1) := by omega
  have e1 : ¬ (bH.Energy.pixId = h.next) := by omega
  have e2 : ¬ (bH.Energy.pixId = h.next + 1) := by omega
  refine ⟨_, _, rfl, ?_, ?_, ?_, ?_, ?_, ?_⟩
  · simp only [PotentialityOperator.ApplyH, newMultivectorH, Heap.alloc]
    omega
  · simp only [PotentialityOperator.ApplyH, newMultivectorH, Heap.alloc]
    omega
  · simp [PotentialityOperator.ApplyH, newMultivectorH, Heap.alloc, Heap.copyPix, g1, g2]
  · simp [PotentialityOperator.ApplyH, newMultivectorH, Heap.alloc, Heap.copyPix, e1, e2]
  · intro x y v
    simp [PotentialityOperator.ApplyH, newMultivectorH, Heap.alloc, Heap.copyPix,
      Heap.write, g1, g2]
  · intro x y v
    simp [PotentialityOperator.ApplyH, newMultivectorH, Heap.alloc, Heap.copyPix,
      Heap.write, e1, e2]

theorem C5_witness :
    mvFull.Energy.rect = mvFull.Geometry.rect ∧
      (∃ s, PotentialityOperator.Apply mvZero mvFull 7 = [s] ∧ cellEq s mvFull ∧
        s.Name = mvFull.Name) :=
  ⟨by decide, (C5_amended mvZero mvFull 7 (by decide)).1⟩

/-! ### Claim C10 -/

/-- C10, confirmed: at every step i of N ≥ 1, each per-cell value the two
interpolating operators compute — before the uint8 conversion — is a finite
float lying between the two endpoint cell values, hence inside [0,255]; the
unguarded uint8 conversion is plain truncation there and never wraps, so no
explicit clamp is needed. -/
theorem C10_no_overflow (a b : Multivector) {n i : ℤ} (hn : 1 ≤ n) (h0 : 0 ≤ i)
    (hi : i ≤ n) (x y : ℤ) :
    NoWrap (lerpVal (a.Geometry.At x y) (b.Geometry.At x y) (tFactor n i))
      (min ((a.Geometry.At x y : ℕ) : ℚ) ((b.Geometry.At x y : ℕ) : ℚ))
      (max ((a.Geometry.At x y : ℕ) : ℚ) ((b.Geometry.At x y : ℕ) : ℚ)) ∧
    NoWrap (lerpVal (a.Energy.At x y) (b.Energy.At x y) (tFactor n i))
      (min ((a.Energy.At x y : ℕ) : ℚ) ((b.Energy.At x y : ℕ) : ℚ))
      (max ((a.Energy.At x y : ℕ) : ℚ) ((b.Energy.At x y : ℕ) : ℚ)) ∧
    NoWrap (decayVal (b.Geometry.At x y) (a.Geometry.At x y) (decayFactor (tFactor n i)))
      (min ((b.Geometry.At x y : ℕ) : ℚ) ((a.Geometry.At x y : ℕ) : ℚ))
      (max ((b.Geometry.At x y : ℕ) : ℚ) ((a.Geometry.At x y : ℕ) : ℚ)) ∧
    NoWrap (decayVal (b.Energy.At x y) (a.Energy.At x y) (decayFactor (tFactor n i)))
      (min ((b.Energy.At x y : ℕ) : ℚ) ((a.Energy.At x y : ℕ) : ℚ))
      (max ((b.Energy.At x y : ℕ) : ℚ) ((a.Energy.At x y : ℕ) : ℚ)) := by
  obtain ⟨t, ht, ht0, ht1⟩ := tFactor_bounds hn h0 hi
  obtain ⟨hd0, hd1⟩ := decay_pow_bounds ht0 ht1
  have lerpCase : ∀ va vb : Fin 256,
      NoWrap (lerpVal va vb (tFactor n i))
        (min ((va : ℕ) : ℚ) ((vb : ℕ) : ℚ)) (max ((va : ℕ) : ℚ) ((vb : ℕ) : ℚ)) := by
    intro va vb
    rw [NoWrap, ht, lerpVal_some]
    refine ⟨_, rfl, (blend_between ht0 ht1).1, (blend_between ht0 ht1).2, ?_, ?_, ?_⟩
    · exact (lerp_in_0_255 va vb ht0 ht1).1
    · exact (lerp_in_0_255 va vb ht0 ht1).2
    · exact f2u8_of_in_range (lerp_in_0_255 va vb ht0 ht1).1 (lerp_in_0_255 va vb ht0 ht1).2
  have decayCase : ∀ va vb : Fin 256,
      NoWrap (decayVal va vb (decayFactor (tFactor n i)))
        (min ((va : ℕ) : ℚ) ((vb : ℕ) : ℚ)) (max ((va : ℕ) : ℚ) ((vb : ℕ) : ℚ)) := by
    intro va vb
    rw [NoWrap, ht, decayFactor_some, decayVal_some]
    have heq : ((va : ℕ) : ℚ) + (((vb : ℕ) : ℚ) - ((va : ℕ) : ℚ)) * ((1 - t) ^ 3) =
        ((va : ℕ) : ℚ) * (1 - (1 - t) ^ 3) + ((vb : ℕ) : ℚ) * ((1 - t) ^ 3) := by ring
    refine ⟨_, rfl, ?_, ?_, ?_, ?_, ?_⟩
    · rw [heq]; exact (blend_between hd0 hd1).1
    · rw [heq]; exact (blend_between hd0 hd1).2
    · exact (decay_in_0_255 va vb hd0 hd1).1
    · exact (decay_in_0_255 va vb hd0 hd1).2
    · exact f2u8_of_in_range (decay_in_0_255 va vb hd0 hd1).1 (decay_in_0_255 va vb hd0 hd1).2
  exact ⟨lerpCase _ _, lerpCase _ _, decayCase _ _, decayCase _ _⟩

theorem C10_witness :
    (1 : ℤ) ≤ 2 ∧ (0 : ℤ) ≤ 1 ∧ (1 : ℤ) ≤ 2 ∧
      NoWrap (lerpVal (mvFull.Geometry.At 0 0) (mvZero.Geometry.At 0 0) (tFactor 2 1))
        (min ((mvFull.Geometry.At 0 0 : ℕ) : ℚ) ((mvZero.Geometry.At 0 0 : ℕ) : ℚ))
        (max ((mvFull.Geometry.At 0 0 : ℕ) : ℚ) ((mvZero.Geometry.At 0 0 : ℕ) : ℚ)) :=
  ⟨by norm_num, by norm_num, by norm_num,
    (C10_no_overflow mvFull mvZero (by norm_num) (by norm_num) (by norm_num) 0 0).1⟩

/-! ### Claim C9 -/

/-- The conditional-accumulate loop is the filtered sum. -/
theorem foldl_cond_sum {α : Type} (p : α → Prop) [DecidablePred p] (g : α → ℕ) :
    ∀ (l : List α) (acc : ℕ),
      l.foldl (fun t c => if p c then t + g c else t) acc =
        acc + (l.map (fun c => if p c then g c else 0)).sum := by
  intro l
  induction l with
  | nil => intro acc; simp
  | cons a l ih =>
    intro acc
    simp only [List.foldl_cons, List.map_cons, List.sum_cons]
    by_cases h : p a
    · rw [if_pos h, if_pos h, ih]; omega
    · rw [if_neg h, if_neg h, ih]; omega

/-- `TotalEnergy` as a sum over the domain's cells. -/
theorem TotalEnergy_eq_sum (mv : Multivector) :
    mv.TotalEnergy =
      ((mv.Energy.rect.cells).map (fun c =>
        if 0 < (mv.Geometry.At c.1 c.2 : ℕ) then (mv.Energy.At c.1 c.2 : ℕ) else 0)).sum := by
  unfold Multivector.TotalEnergy
  exact (foldl_cond_sum _ _ _ 0).trans (Nat.zero_add _)

theorem mem_intRange {lo hi z : ℤ} (h : z ∈ intRange lo hi) : lo ≤ z ∧ z < hi := by
  unfold intRange at h
  rw [List.mem_map] at h
  obtain ⟨k, hk, rfl⟩ := h
  rw [List.mem_range] at hk
  omega

/-- A cell produced by the nested loops lies inside the rectangle. -/
theorem mem_cells {r : Rect} {c : ℤ × ℤ} (hc : c ∈ r.cells) : r.contains c.1 c.2 := by
  unfold Rect.cells at hc
  rw [List.mem_flatMap] at hc
  obtain ⟨y, hy, hc2⟩ := hc
  rw [List.mem_map] at hc2
  obtain ⟨x, hx, rfl⟩ := hc2
  exact ⟨(mem_intRange hx).1, (mem_intRange hx).2, (mem_intRange hy).1, (mem_intRange hy).2⟩

theorem Image.Set_rect (img : Image) (x y : ℤ) (v : Fin 256) :
    (img.Set x y v).rect = img.rect := by
  unfold Image.Set; split <;> rfl

theorem Image.Set_pix_of_contains {img : Image} {x y : ℤ} (h : img.rect.contains x y)
    (v : Fin 256) :
    (img.Set x y v).pix = fun a b => if a = x ∧ b = y then v else img.pix a b := by
  unfold Image.Set; rw [if_pos h]

theorem activeGeomY_eq : activeGeomY = 5 := by decide

/-- Closed form of the `PSI_ACTIVE` construction loop: after `m ≤ 100`
columns, the band rows 4 and 5 hold 255 (geometry) and 250 (energy) in the
first `m` columns and everything else is still 0. -/
theorem activeCols_spec (m : ℕ) (hm : m ≤ 100) :
    (activeCols m).Geometry.rect = simShape ∧
    (activeCols m).Energy.rect = simShape ∧
    (∀ x y : ℤ, (activeCols m).Geometry.pix x y =
      if (0 ≤ x ∧ x < (m : ℤ)) ∧ (y = 4 ∨ y = 5) then 255 else 0) ∧
    (∀ x y : ℤ, (activeCols m).Energy.pix x y =
      if (0 ≤ x ∧ x < (m : ℤ)) ∧ (y = 4 ∨ y = 5) then 250 else 0) := by
  induction m with
  | zero =>
    refine ⟨rfl, rfl, ?_, ?_⟩ <;> intro x y <;> rw [if_neg (by omega)] <;> rfl
  | succ m ih =>
    obtain ⟨hgr, her, hgp, hep⟩ := ih (by omega)
    have hstep : activeCols (m + 1) = activeLoopBody (activeCols m) ((m : ℕ) : ℤ) := by
      unfold activeCols
      rw [List.range_succ, List.foldl_append, List.foldl_cons, List.foldl_nil]
    have hc4 : (activeCols m).Geometry.rect.contains ((m : ℕ) : ℤ) (activeGeomY - 1) := by
      rw [hgr, activeGeomY_eq]
      simp only [simShape, Rect.contains]
      omega
    have hc5g : ((activeCols m).Geometry.Set ((m : ℕ) : ℤ) (activeGeomY - 1) 255).rect.contains
        ((m : ℕ) : ℤ) activeGeomY := by
      rw [Image.Set_rect, hgr, activeGeomY_eq]
      simp only [simShape, Rect.contains]
      omega
    have hc4e : (activeCols m).Energy.rect.contains ((m : ℕ) : ℤ) (activeGeomY - 1) := by
      rw [her, activeGeomY_eq]
      simp only [simShape, Rect.contains]
      omega
    have hc5e : ((activeCols m).Energy.Set ((m : ℕ) : ℤ) (activeGeomY - 1) 250).rect.contains
        ((m : ℕ) : ℤ) activeGeomY := by
      rw [Image.Set_rect, her, activeGeomY_eq]
      simp only [simShape, Rect.contains]
      omega
    refine ⟨?_, ?_, ?_, ?_⟩
    · rw [hstep]
      show ((((activeCols m).Geometry.Set _ _ _).Set _ _ _)).rect = simShape
      rw [Image.Set_rect, Image.Set_rect, hgr]
    · rw [hstep]
      show ((((activeCols m).Energy.Set _ _ _).Set _ _ _)).rect = simShape
      rw [Image.Set_rect, Image.Set_rect, her]
    · intro x y
      rw [hstep]
      show (((activeCols m).Geometry.Set _ _ _).Set _ _ _).pix x y = _
      rw [Image.Set_pix_of_contains hc5g, Image.Set_pix_of_contains hc4]
      simp only [activeGeomY_eq]
      rw [hgp x y]
      split_ifs <;> first | rfl | omega
    · intro x y
      rw [hstep]
      show (((activeCols m).Energy.Set _ _ _).Set _ _ _).pix x y = _
      rw [Image.Set_pix_of_contains hc5e, Image.Set_pix_of_contains hc4e]
      simp only [activeGeomY_eq]
      rw [hep x y]
      split_ifs <;> first | rfl | omega

set_option maxRecDepth 100000 in
/-- C9, confirmed: `TotalEnergy` is the sum of the intensity over exactly the
cells with strictly positive coverage (zero-coverage cells contribute
nothing); the Null stable state has total magnitude 0 over any domain, and
the driver's Active state on the 100×10 domain has total magnitude
100·2·250 = 50000. -/
theorem C9_total_magnitude :
    (∀ mv : Multivector, mv.TotalEnergy = ((mv.Energy.rect.cells).map (fun c =>
        if 0 < (mv.Geometry.At c.1 c.2 : ℕ) then (mv.Energy.At c.1 c.2 : ℕ) else 0)).sum) ∧
    (∀ (name : String) (r : Rect), (newMultivector name r).TotalEnergy = 0) ∧
    PSI_ACTIVE.TotalEnergy = 50000 := by
  refine ⟨TotalEnergy_eq_sum, ?_, ?_⟩
  · intro name r
    rw [TotalEnergy_eq_sum]
    apply List.sum_eq_zero
    intro v hv
    obtain ⟨c, -, rfl⟩ := List.mem_map.mp hv
    simp [newMultivector, Image.At]
  · obtain ⟨hgr, her, hgp, hep⟩ := activeCols_spec 100 (le_refl _)
    have hPA : PSI_ACTIVE = activeCols 100 := rfl
    rw [hPA, TotalEnergy_eq_sum, her]
    rw [List.map_congr_left (g := fun c : ℤ × ℤ =>
      if (0 ≤ c.1 ∧ c.1 < (100 : ℤ)) ∧ (c.2 = 4 ∨ c.2 = 5) then 250 else 0) ?_]
    · decide
    · intro c hc
      have hcont : simShape.contains c.1 c.2 := mem_cells hc
      unfold Image.At
      rw [if_pos (show (activeCols 100).Geometry.rect.contains c.1 c.2 by
            rw [hgr]; exact hcont),
        if_pos (show (activeCols 100).Energy.rect.contains c.1 c.2 by
            rw [her]; exact hcont),
        hgp c.1 c.2, hep c.1 c.2]
      simp only [Nat.cast_ofNat]
      by_cases hcond : (0 ≤ c.1 ∧ c.1 < (100 : ℤ)) ∧ (c.2 = 4 ∨ c.2 = 5)
      · simp only [if_pos hcond]
        decide
      · simp only [if_neg hcond]
        decide

/-! ### Claim C8 -/

/-- The `for state := range ch` loop leaves `currentState` at the last
emitted state. -/
theorem drain_append_last (cur : Multivector) (l : List Multivector) (s : Multivector) :
    drain cur (l ++ [s]) = s := by
  unfold drain
  rw [List.foldl_append]
  rfl

theorem apply_concat_genesis (a b : Multivector) {n : ℤ} (h : 0 ≤ n) :
    GenesisOperator.Apply a b n =
      ((List.range n.toNat).map (fun (k : ℕ) => (k : ℤ))).map (GenesisOperator.step a b n)
        ++ [GenesisOperator.step a b n n] := by
  unfold GenesisOperator.Apply
  rw [stepIdxs_of_nonneg h, List.range_succ, List.map_append, List.map_append]
  simp only [List.map_cons, List.map_nil]
  rw [Int.toNat_of_nonneg h]

theorem apply_concat_quench (a b : Multivector) {n : ℤ} (h : 0 ≤ n) :
    QuenchingOperator.Apply a b n =
      ((List.range n.toNat).map (fun (k : ℕ) => (k : ℤ))).map (QuenchingOperator.step a b n)
        ++ [QuenchingOperator.step a b n n] := by
  unfold QuenchingOperator.Apply
  rw [stepIdxs_of_nonneg h, List.range_succ, List.map_append, List.map_append]
  simp only [List.map_cons, List.map_nil]
  rw [Int.toNat_of_nonneg h]

theorem drain_genesis (cur a b : Multivector) {n : ℤ} (h : 0 ≤ n) :
    drain cur (GenesisOperator.Apply a b n) = GenesisOperator.step a b n n := by
  rw [apply_concat_genesis a b h, drain_append_last]

/-- The state the driver threads into the third scripted step. -/
theorem currentState2_eq :
    currentState2 = GenesisOperator.step currentState1 PSI_ACTIVE 50 50 :=
  drain_genesis currentState1 currentState1 PSI_ACTIVE (by norm_num)

/-- Both grids of every Genesis emission live over `initial.Geometry`'s
bounds. -/
theorem genesisStep_rects (a b : Multivector) (n i : ℤ) :
    (GenesisOperator.step a b n i).Geometry.rect = a.Geometry.rect ∧
    (GenesisOperator.step a b n i).Energy.rect = a.Geometry.rect :=
  ⟨rfl, rfl⟩

/-- The Potentiality emission and where the driver's loop leaves it. -/
theorem potApply_head_rects (a b : Multivector) (n : ℤ) :
    ∃ s, PotentialityOperator.Apply a b n = [s] ∧
      s.Geometry.rect = b.Geometry.rect ∧ s.Energy.rect = b.Geometry.rect ∧
      ∀ cur, drain cur (PotentialityOperator.Apply a b n) = s :=
  ⟨_, rfl, rfl, rfl, fun _ => rfl⟩

theorem PSI_NULL_rects : PSI_NULL.Geometry.rect = simShape ∧ PSI_NULL.Energy.rect = simShape :=
  ⟨rfl, rfl⟩

theorem PSI_POTENTIAL_geom_rect : PSI_POTENTIAL.Geometry.rect = simShape := by
  unfold PSI_POTENTIAL
  dsimp only
  rw [show PSI_ACTIVE = activeCols 100 from rfl]
  exact (activeCols_spec 100 (le_refl _)).1

/-- C8: the code declares `simHistory` ("Save history for rendering later")
but never appends to it, so the program's history stays empty — while the
scripted sequence does emit exactly 1 + 51 + 21 = 73 states whose final one
is cell-for-cell equal to the Null stable state.  The claim is right about
the emitted sequence; the code's missing `append` is the bug. -/
theorem C8_driver_history :
    simHistory.length = 0 ∧
    scriptedEmissions.length = 73 ∧
    (∃ s, scriptedEmissions.getLast? = some s ∧ cellEq s PSI_NULL) := by
  obtain ⟨s1, hop1, hg1, he1, hdrain1⟩ := potApply_head_rects PSI_NULL PSI_POTENTIAL 0
  have hc1 : currentState1 = s1 := hdrain1 PSI_NULL
  have hc1r : currentState1.Geometry.rect = simShape := by
    rw [hc1, hg1, PSI_POTENTIAL_geom_rect]
  have hsame : sameDomain currentState2 PSI_NULL := by
    refine ⟨?_, ?_, ?_⟩
    · rw [currentState2_eq, (genesisStep_rects _ _ _ _).2,
        (genesisStep_rects _ _ _ _).1]
    · rw [currentState2_eq, (genesisStep_rects _ _ _ _).1, hc1r, PSI_NULL_rects.1]
    · rw [currentState2_eq, (genesisStep_rects _ _ _ _).1, hc1r, PSI_NULL_rects.2]
  refine ⟨rfl, ?_, ?_⟩
  · show (opChan1 ++ opChan2 ++ opChan3).length = 73
    have h2 : opChan2.length = 51 := by
      show (GenesisOperator.Apply currentState1 PSI_ACTIVE 50).length = 51
      rw [genesisApply_length _ _ (by norm_num)]
      rfl
    have h3 : opChan3.length = 21 := by
      show (QuenchingOperator.Apply currentState2 PSI_NULL 20).length = 21
      rw [quenchApply_length _ _ (by norm_num)]
      rfl
    rw [List.length_append, List.length_append, h2, h3]
    rfl
  · have hq : opChan3 =
        (((List.range (20 : ℤ).toNat).map (fun (k : ℕ) => (k : ℤ))).map
          (QuenchingOperator.step currentState2 PSI_NULL 20)) ++
          [QuenchingOperator.step currentState2 PSI_NULL 20 20] :=
      apply_concat_quench currentState2 PSI_NULL (by norm_num)
    refine ⟨QuenchingOperator.step currentState2 PSI_NULL 20 20, ?_,
      quenchStep_last_cellEq currentState2 PSI_NULL (by norm_num) hsame⟩
    show (opChan1 ++ opChan2 ++ opChan3).getLast? = _
    rw [hq, ← List.append_assoc, List.getLast?_concat]

end SDGA
